import Mathlib

/-!
A shallow embedding of the core pipeline of `support-project-radar`
(`src/radar/main.py`, `src/radar/integrations/slack.py`, `scripts/daily.py`).

Python strings are modelled as `List Char` (a Python `str` is a sequence of
code points).  Python `datetime` values are modelled as `Int` seconds on a
linear time axis: a naive datetime at midnight of the civil date `(y, m, d)`
is `daysFromCivil y m d * 86400`, and `timedelta(days = n)` is `n * 86400`
seconds.  Comparison of naive datetimes in Python agrees with comparison of
these integers.  Character lowering is modelled on the ASCII range (the
repository's keywords are ASCII or Korean, and Korean has no case, so
`str.lower` and ASCII lowering agree on all inputs that matter).
-/

namespace Radar

/-- Python truthiness-based `a or b` on strings: `a` if non-empty, else `b`. -/
def pyOr (a b : List Char) : List Char := if a = [] then b else a

/-- `str.split(sep)` for a single-character separator; keeps empty pieces,
and `"".split(sep) == [""]`, like Python. -/
def splitOnC (sep : Char) : List Char → List (List Char)
  | [] => [[]]
  | c :: rest =>
    let r := splitOnC sep rest
    if c = sep then [] :: r
    else
      match r with
      | [] => [[c]]
      | h :: t => (c :: h) :: t

/-- First piece of a split (Python `split(...)[0]`); `splitOnC` never
returns `[]`, so the default is never used. -/
def firstPiece (l : List (List Char)) : List Char := l.headD []

/-- Decimal digits to a number, most significant first. -/
def digitsToNat (l : List Char) : Nat := l.foldl (fun a c => a * 10 + (c.toNat - 48)) 0

/-- Gregorian leap year, as Python's `datetime` validates it. -/
def isLeap (y : Nat) : Bool := (y % 4 = 0 && decide (y % 100 ≠ 0)) || y % 400 = 0

/-- Length of month `m` in year `y`. -/
def daysInMonth (y m : Nat) : Nat :=
  if m = 2 then (if isLeap y then 29 else 28)
  else if m = 4 ∨ m = 6 ∨ m = 9 ∨ m = 11 then 30 else 31

/-- The calendar dates `datetime.datetime` accepts (its year range is
1..9999; a 4-digit year field bounds the year by 9999 already). -/
def validDate (y m d : Nat) : Bool :=
  decide (1 ≤ y) && decide (y ≤ 9999) && decide (1 ≤ m) && decide (m ≤ 12) &&
    decide (1 ≤ d) && decide (d ≤ daysInMonth y m)

/-- Days between civil date `(y, m, d)` and 1970-01-01 (Howard Hinnant's
`days_from_civil`, specialised to `y ≥ 1` so all intermediate values are
natural numbers). -/
def daysFromCivil (y m d : Nat) : Int :=
  let ys := y - (if m ≤ 2 then 1 else 0)
  let era := ys / 400
  let yoe := ys % 400
  let mp := (m + 9) % 12
  let doy := (153 * mp + 2) / 5 + d - 1
  let doe := yoe * 365 + yoe / 4 - yoe / 100 + doy
  (era * 146097 + doe : Int) - 719468

/-- The naive datetime at midnight of `(y, m, d)`, in seconds. -/
def midnight (y m d : Nat) : Int := daysFromCivil y m d * 86400

/-- `datetime.strptime(s, "%Y%m%d")` for an 8-character all-digit `s`:
4-digit year, 2-digit month, 2-digit day.  (For an exactly-8-digit string
the only way strptime's `%m`/`%d` patterns can consume all characters is
two digits each, so the fixed 4/2/2 split is exact.)  `none` when the
resulting date is invalid (strptime raises `ValueError`). -/
def parseYmd8 (s : List Char) : Option (Nat × Nat × Nat) :=
  let y := digitsToNat (s.take 4)
  let m := digitsToNat ((s.drop 4).take 2)
  let d := digitsToNat (s.drop 6)
  if validDate y m d then some (y, m, d) else none

/-- `datetime.strptime(s, "%Y<sep>%m<sep>%d")`: strptime's patterns are a
4-digit year and 1-2 digit month/day separated by the literal separator,
consuming the whole string, followed by `datetime`'s validity check. -/
def parseSep (sep : Char) (s : List Char) : Option (Nat × Nat × Nat) :=
  match splitOnC sep s with
  | [ys, ms, ds] =>
    if ys.length = 4 && ys.all Char.isDigit &&
       decide (1 ≤ ms.length) && decide (ms.length ≤ 2) && ms.all Char.isDigit &&
       decide (1 ≤ ds.length) && decide (ds.length ≤ 2) && ds.all Char.isDigit then
      let y := digitsToNat ys
      let m := digitsToNat ms
      let d := digitsToNat ds
      if validDate y m d then some (y, m, d) else none
    else none
  | _ => none

/-- `parse_date` from `src/radar/main.py`: strip timezone suffix
(`split("+")[0].split("Z")[0]`), try `%Y%m%d` when the original string is
8 digits, drop a `T`-separated time part, then try `%Y-%m-%d` and
`%Y/%m/%d` on the first 10 characters.  Returns the parsed civil date
(the produced `datetime` is at midnight of that date), or `none`. -/
def parse_date (s : List Char) : Option (Nat × Nat × Nat) :=
  if s = [] then none
  else
    let clean := firstPiece (splitOnC 'Z' (firstPiece (splitOnC '+' s)))
    let eight : Option (Nat × Nat × Nat) :=
      if s.length = 8 && s.all Char.isDigit then parseYmd8 s else none
    match eight with
    | some ymd => some ymd
    | none =>
      let c := firstPiece (splitOnC 'T' clean)
      match parseSep '-' (c.take 10) with
      | some ymd => some ymd
      | none => parseSep '/' (c.take 10)

/-- A raw item: the Python dict produced by a connector.  `none` models an
absent key; `item.get(k, default)` is `getD`. -/
structure RawItem where
  source : Option (List Char) := none
  source_id : Option (List Char) := none
  title : Option (List Char) := none
  url : Option (List Char) := none
  link : Option (List Char) := none
  published_at : Option (List Char) := none
  date : Option (List Char) := none
  apply_start : Option (List Char) := none
  apply_end : Option (List Char) := none
  summary : Option (List Char) := none
  content : Option (List Char) := none
  keywords : Option (List (List Char)) := none
deriving DecidableEq, Repr

/-- `item.get(field, "")`. -/
def getS (o : Option (List Char)) : List Char := o.getD []

/-- The start-date string the temporal filter uses:
`item.get("apply_start", "") or item.get("published_at", "")`. -/
def effectiveStartStr (item : RawItem) : List Char :=
  pyOr (getS item.apply_start) (getS item.published_at)

/-- `is_within_date_range` from `src/radar/main.py`.  `now` models
`datetime.now()` (in seconds), `lookback` the `LOOKBACK_DAYS` integer;
`cutoff = now - timedelta(days=lookback)`.  `is_recent` and
`is_not_expired` are Python-truthy values collapsed to `Bool`. -/
def is_within_date_range (item : RawItem) (lookback : Int) (now : Int) : Bool :=
  let cutoff := now - lookback * 86400
  let start := parse_date (effectiveStartStr item)
  let applyEnd := parse_date (getS item.apply_end)
  let isRecent := match start with
    | some (y, m, d) => decide (midnight y m d ≥ cutoff)
    | none => false
  let isNotExpired := match applyEnd with
    | some (y, m, d) => decide (midnight y m d ≥ now)
    | none => false
  isRecent && isNotExpired

/-! ### Dedup against the seen-item store (`filter_new_items`) -/

/-- The seen-item store: the set of `source_id`s in the `seen_items`
SQLite table (the table is keyed by `source_id`; the other columns never
affect behaviour).  Inserting prepends; membership is the
`SELECT 1 ... WHERE source_id = ?` probe.  -/
abbrev Store := List (List Char)

/-- `filter_new_items` from `src/radar/main.py`: items with an empty
`source_id` are skipped; an already-stored id is dropped; a fresh id is
appended to the output and inserted into the store at once (the cursor
sees its own uncommitted inserts, so a later duplicate in the same batch
is dropped too).  Returns the new-item list and the updated store. -/
def filter_new_items : List RawItem → Store → List RawItem × Store
  | [], store => ([], store)
  | item :: rest, store =>
    if getS item.source_id = [] then filter_new_items rest store
    else if getS item.source_id ∈ store then filter_new_items rest store
    else
      (item :: (filter_new_items rest (getS item.source_id :: store)).1,
       (filter_new_items rest (getS item.source_id :: store)).2)

/-- How many items of a batch carry `source_id` equal to `X`. -/
def sidCount (X : List Char) : List RawItem → Nat
  | [] => 0
  | it :: rest => (if getS it.source_id = X then 1 else 0) + sidCount X rest

/-! ### Rule engine (keyword loop of `run_daily`) -/

/-- ASCII lowering of a whole string (Python `str.lower`; identical on the
ASCII letters and on Korean text, which has no case). -/
def toLowerStr (s : List Char) : List Char := s.map Char.toLower

/-- Substring containment, Python's `needle in hay` on strings. -/
def containsSub (hay needle : List Char) : Bool :=
  if needle.isPrefixOf hay then true
  else
    match hay with
    | [] => false
    | _ :: t => containsSub t needle

/-- `search_text = f"{title} {summary} {content}".lower()`. -/
def searchText (item : RawItem) : List Char :=
  toLowerStr (getS item.title ++ [' '] ++ getS item.summary ++ [' '] ++ getS item.content)

/-- The `matched_keywords` list built by `run_daily`: every keyword of
`always_include` whose lowering occurs in the search text, then, group by
group, every keyword of each group's `any` list that occurs. -/
def matchedKeywords (always : List (List Char)) (groups : List (List (List Char)))
    (text : List Char) : List (List Char) :=
  always.filter (fun k => containsSub text (toLowerStr k)) ++
    (groups.map (fun g => g.filter (fun k => containsSub text (toLowerStr k)))).flatten

/-- Python `list(set(xs))`: some duplicate-free list with the membership of
`xs` (Python fixes no order; this model keeps last occurrences). -/
def pySet : List (List Char) → List (List Char)
  | [] => []
  | x :: xs => if x ∈ xs then pySet xs else x :: pySet xs

/-! ### Normalizer -/

/-- The canonical output record. -/
structure NormalizedItem where
  source : List Char
  source_id : List Char
  title : List Char
  link : List Char
  date : List Char
  apply_start : List Char
  apply_end : List Char
  summary : List Char
  content : List Char
  keywords : List (List Char)
deriving DecidableEq, Repr

/-- `normalize_item` from `src/radar/main.py`, field by field; note that
`link` is `item.get("url", "") or item.get("link", "")` and `date` is
`item.get("published_at", "") or item.get("date", "")`. -/
def normalize_item (item : RawItem) : NormalizedItem :=
  { source := getS item.source
    source_id := getS item.source_id
    title := getS item.title
    link := pyOr (getS item.url) (getS item.link)
    date := pyOr (getS item.published_at) (getS item.date)
    apply_start := getS item.apply_start
    apply_end := getS item.apply_end
    summary := getS item.summary
    content := getS item.content
    keywords := (item.keywords).getD [] }

/-! ### Pipeline orchestration (`run_daily`) -/

/-- `item["keywords"] = list(set(matched_keywords))` on a surviving item. -/
def tagItem (always : List (List Char)) (groups : List (List (List Char)))
    (item : RawItem) : RawItem :=
  { item with keywords := some (pySet (matchedKeywords always groups (searchText item))) }

/-- One iteration of the rule loop in `run_daily`: `none` when no keyword
matched (item dropped), else the tagged and normalized item. -/
def ruleStage (always : List (List Char)) (groups : List (List (List Char)))
    (item : RawItem) : Option NormalizedItem :=
  if matchedKeywords always groups (searchText item) = [] then none
  else some (normalize_item (tagItem always groups item))

/-- The decision core of `run_daily`: dedup against the store, then the
date filter, then the rule loop (which tags and normalizes).  Returns the
final item list and the store as left by the dedup stage (no later stage
touches the store). -/
def run_daily_core (raw : List RawItem) (store : Store) (lookback : Int) (now : Int)
    (always : List (List Char)) (groups : List (List (List Char))) :
    List NormalizedItem × Store :=
  let dedup := filter_new_items raw store
  let dateFiltered := dedup.1.filter (fun it => is_within_date_range it lookback now)
  (dateFiltered.filterMap (ruleStage always groups), dedup.2)

/-! ### Notification sink (`send_rich_message` in `integrations/slack.py`) -/

/-- `MAX_SLACK_ITEMS`. -/
def MAX_SLACK_ITEMS : Nat := 10

/-- The header text of a rich message, keeping the data the f-strings
interpolate: either the caller-supplied title, or the capped form
`"(total건 중 cap건)"`, or the plain form `"(total건)"`. -/
inductive HeaderText where
  | custom (t : List Char)
  | capped (total cap : Nat)
  | plain (total : Nat)
deriving DecidableEq, Repr

/-- The payload `send_rich_message` posts: either the fixed
"no new announcements" message, or a header plus one section block per
displayed item (formatting inside a block is presentation only and is not
modelled). -/
inductive SlackPayload where
  | noItems
  | rich (header : HeaderText) (sections : List NormalizedItem)
deriving DecidableEq, Repr

/-- `send_rich_message`: empty input posts the no-items message; otherwise
`display_items = items[:MAX_SLACK_ITEMS]` become the item blocks, and the
header states `total_count` together with the cap exactly when
`total_count > MAX_SLACK_ITEMS` (unless a custom title is supplied). -/
def send_rich_message (items : List NormalizedItem) (title : Option (List Char)) :
    SlackPayload :=
  if items = [] then SlackPayload.noItems
  else
    let totalCount := items.length
    let displayItems := items.take MAX_SLACK_ITEMS
    let header : HeaderText :=
      match title with
      | some t => HeaderText.custom t
      | none =>
        if totalCount > MAX_SLACK_ITEMS then HeaderText.capped totalCount MAX_SLACK_ITEMS
        else HeaderText.plain totalCount
    SlackPayload.rich header displayItems

/-- The item blocks a payload transmits. -/
def sectionsOf : SlackPayload → List NormalizedItem
  | SlackPayload.noItems => []
  | SlackPayload.rich _ sections => sections

/-- The header of a payload, when it has one. -/
def headerOf : SlackPayload → Option HeaderText
  | SlackPayload.noItems => none
  | SlackPayload.rich h _ => some h

/-! ### Top-level entry point (`main` in `scripts/daily.py`) -/

/-- How the `try` body of `main` ends: `run_pipeline` returns a code, or an
exception escapes (`KeyboardInterrupt` or any other, carrying its message). -/
inductive PipelineOutcome where
  | completed (code : Int)
  | keyboardInterrupt
  | error (msg : List Char)
deriving DecidableEq, Repr

/-- What `main` does with an outcome: the exit status, the error line it
logs, and whether it printed a traceback. -/
structure MainResult where
  exitCode : Int
  loggedError : Option (List Char)
  tracebackPrinted : Bool
deriving DecidableEq, Repr

/-- `run_pipeline` always returns 0 when it completes (`return 0`). -/
def run_pipeline_exit : Int := 0

/-- The `try/except` ladder of `main`: normal completion returns the
pipeline's code; `KeyboardInterrupt` returns 130; any other exception is
logged with its message, prints a traceback only under `--verbose`, and
returns 1. -/
def mainModel (outcome : PipelineOutcome) (verbose : Bool) : MainResult :=
  match outcome with
  | PipelineOutcome.completed code =>
      { exitCode := code, loggedError := none, tracebackPrinted := false }
  | PipelineOutcome.keyboardInterrupt =>
      { exitCode := 130, loggedError := none, tracebackPrinted := false }
  | PipelineOutcome.error msg =>
      { exitCode := 1, loggedError := some msg, tracebackPrinted := verbose }

/-! ### Concrete fixtures used to instantiate theorems -/

/-- A raw item carrying only the `source_id` `"a"`. -/
def itemA : RawItem := { source_id := some ['a'] }

/-- A raw item with a recent `apply_start` (2024-01-10) and no `apply_end`. -/
def itemNoEnd : RawItem :=
  { apply_start := some ['2', '0', '2', '4', '-', '0', '1', '-', '1', '0'] }

/-- A raw item whose `apply_end` is the 8-digit date 20240115. -/
def itemEnd0115 : RawItem :=
  { apply_start := some ['2', '0', '2', '4', '0', '1', '1', '4'],
    apply_end := some ['2', '0', '2', '4', '0', '1', '1', '5'] }

/-- A raw item where the alias pairs `url`/`link` and `published_at`/`date`
are all present and pairwise different. -/
def itemAliases : RawItem :=
  { url := some ['u'], link := some ['l'], published_at := some ['p'],
    date := some ['d'] }

/-! ### Helper lemmas about the dedup stage -/

theorem fni_store_mono (items : List RawItem) (store : Store) (x : List Char)
    (hx : x ∈ store) : x ∈ (filter_new_items items store).2 := by
  induction items generalizing store with
  | nil => simpa [filter_new_items] using hx
  | cons it rest ih =>
    simp only [filter_new_items]
    split
    · exact ih store hx
    · split
      · exact ih store hx
      · exact ih (getS it.source_id :: store) (List.mem_cons_of_mem _ hx)

theorem fni_marks (items : List RawItem) (store : Store) (it : RawItem)
    (hmem : it ∈ items) (hsid : getS it.source_id ≠ []) :
    getS it.source_id ∈ (filter_new_items items store).2 := by
  induction items generalizing store with
  | nil => cases hmem
  | cons hd rest ih =>
    simp only [filter_new_items]
    rcases List.mem_cons.mp hmem with heq | htail
    · subst heq
      split
      · exact absurd (by assumption) hsid
      · split
        · exact fni_store_mono rest store _ (by assumption)
        · exact fni_store_mono rest _ _ (List.mem_cons_self _ _)
    · split
      · exact ih store htail
      · split
        · exact ih store htail
        · exact ih _ htail

theorem fni_sublist (items : List RawItem) (store : Store) :
    ((filter_new_items items store).1).Sublist items := by
  induction items generalizing store with
  | nil => simp [filter_new_items]
  | cons hd rest ih =>
    simp only [filter_new_items]
    split
    · exact (ih store).cons hd
    · split
      · exact (ih store).cons hd
      · exact (ih (getS hd.source_id :: store)).cons₂ hd

theorem fni_count_seen (items : List RawItem) (store : Store) (X : List Char)
    (hX : X ∈ store) : sidCount X (filter_new_items items store).1 = 0 := by
  induction items generalizing store with
  | nil => simp [filter_new_items, sidCount]
  | cons hd rest ih =>
    simp only [filter_new_items]
    split
    · exact ih store hX
    · split
      · exact ih store hX
      · rename_i hne hnm
        have hX' : getS hd.source_id ≠ X := fun h => hnm (h ▸ hX)
        simp [sidCount, hX', ih (getS hd.source_id :: store) (List.mem_cons_of_mem _ hX)]

theorem fni_count_le_one (items : List RawItem) (store : Store) (X : List Char) :
    sidCount X (filter_new_items items store).1 ≤ 1 := by
  induction items generalizing store with
  | nil => simp [filter_new_items, sidCount]
  | cons hd rest ih =>
    simp only [filter_new_items]
    split
    · exact ih store
    · split
      · exact ih store
      · by_cases hX : getS hd.source_id = X
        · simp [sidCount, hX, fni_count_seen rest (X :: store) X (List.mem_cons_self _ _)]
        · simpa [sidCount, hX] using ih (getS hd.source_id :: store)

theorem fni_pos_mem_store (items : List RawItem) (store : Store) (X : List Char)
    (hpos : 1 ≤ sidCount X (filter_new_items items store).1) :
    X ∈ (filter_new_items items store).2 := by
  induction items generalizing store with
  | nil => simp [filter_new_items, sidCount] at hpos
  | cons hd rest ih =>
    simp only [filter_new_items] at hpos ⊢
    split
    · exact ih store (by simpa [*] using hpos)
    · split
      · exact ih store (by simpa [*] using hpos)
      · by_cases hX : getS hd.source_id = X
        · exact fni_store_mono rest _ X (hX ▸ List.mem_cons_self _ _)
        · refine ih (getS hd.source_id :: store) ?_
          simpa [sidCount, hX, *] using hpos

/-! ### Helper lemmas about substring matching and the rule engine -/

theorem isPrefixOf_iff (l r : List Char) : l.isPrefixOf r = true ↔ ∃ t, r = l ++ t := by
  induction l generalizing r with
  | nil => simp [List.isPrefixOf]
  | cons a as ih =>
    cases r with
    | nil => simp [List.isPrefixOf]
    | cons b bs =>
      simp only [List.isPrefixOf, Bool.and_eq_true, beq_iff_eq, ih, List.cons_append,
        List.cons.injEq]
      constructor
      · rintro ⟨rfl, t, rfl⟩
        exact ⟨t, rfl, rfl⟩
      · rintro ⟨t, rfl, rfl⟩
        exact ⟨rfl, t, rfl⟩

theorem containsSub_iff (hay needle : List Char) :
    containsSub hay needle = true ↔ ∃ pre post, hay = pre ++ needle ++ post := by
  induction hay with
  | nil =>
    simp only [containsSub]
    split
    · rename_i h
      obtain ⟨t, ht⟩ := (isPrefixOf_iff needle []).mp h
      refine iff_of_true rfl ⟨[], t, by simpa using ht⟩
    · rename_i h
      constructor
      · intro hfalse; cases hfalse
      · rintro ⟨pre, post, hpp⟩
        exact absurd ((isPrefixOf_iff needle []).mpr ⟨[], by
          rcases List.append_eq_nil.mp (List.append_eq_nil.mp hpp.symm).1 with ⟨h1, h2⟩
          simp [h2]⟩) h
  | cons c t ih =>
    simp only [containsSub]
    split
    · rename_i h
      obtain ⟨s, hs⟩ := (isPrefixOf_iff needle (c :: t)).mp h
      exact iff_of_true rfl ⟨[], s, by simpa using hs⟩
    · rename_i h
      rw [ih]
      constructor
      · rintro ⟨pre, post, hpp⟩
        exact ⟨c :: pre, post, by simp [hpp]⟩
      · rintro ⟨pre, post, hpp⟩
        cases pre with
        | nil =>
          exact absurd ((isPrefixOf_iff needle (c :: t)).mpr ⟨post, by simpa using hpp⟩) h
        | cons p ps =>
          rw [List.cons_append, List.cons_append, List.cons.injEq] at hpp
          exact ⟨ps, post, hpp.2⟩

theorem mem_pySet (l : List (List Char)) (a : List Char) : a ∈ pySet l ↔ a ∈ l := by
  induction l with
  | nil => simp [pySet]
  | cons x xs ih =>
    simp only [pySet]
    split
    · rename_i hx
      rw [ih, List.mem_cons]
      constructor
      · exact Or.inr
      · rintro (rfl | h)
        · exact hx
        · exact h
    · simp [List.mem_cons, ih]

theorem nodup_pySet (l : List (List Char)) : (pySet l).Nodup := by
  induction l with
  | nil => simp [pySet]
  | cons x xs ih =>
    simp only [pySet]
    split
    · exact ih
    · rename_i hx
      exact List.Nodup.cons (fun hmem => hx ((mem_pySet xs x).mp hmem)) ih

theorem mem_matchedKeywords (always : List (List Char)) (groups : List (List (List Char)))
    (text k : List Char) :
    k ∈ matchedKeywords always groups text ↔
      ((k ∈ always ∨ ∃ g, g ∈ groups ∧ k ∈ g) ∧ containsSub text (toLowerStr k) = true) := by
  simp only [matchedKeywords, List.mem_append, List.mem_filter, List.mem_flatten,
    List.mem_map]
  constructor
  · rintro (⟨ha, hc⟩ | ⟨l, ⟨g, hg, rfl⟩, hkl⟩)
    · exact ⟨Or.inl ha, hc⟩
    · obtain ⟨hkg, hc⟩ := List.mem_filter.mp hkl
      exact ⟨Or.inr ⟨g, hg, hkg⟩, hc⟩
  · rintro ⟨ha | ⟨g, hg, hkg⟩, hc⟩
    · exact Or.inl ⟨ha, hc⟩
    · exact Or.inr ⟨g.filter (fun k => containsSub text (toLowerStr k)), ⟨g, hg, rfl⟩,
        List.mem_filter.mpr ⟨hkg, hc⟩⟩

/-- `filterMap` of an if-then-none-else-some function is a `map` over a
`filter`. -/
theorem filterMap_ite_none {α β : Type} (q : α → Prop) [DecidablePred q] (g : α → β)
    (l : List α) :
    l.filterMap (fun a => if q a then none else some (g a)) =
      (l.filter (fun a => decide ¬ q a)).map g := by
  induction l with
  | nil => rfl
  | cons a t ih =>
    by_cases hq : q a
    · simp [List.filterMap_cons, List.filter_cons, hq, ih]
    · simp [List.filterMap_cons, List.filter_cons, hq, ih]

/-- The tag carried by the outcome of the rule stage (`[]` when dropped). -/
def tagOf (o : Option NormalizedItem) : List (List Char) :=
  (o.map (fun n => n.keywords)).getD []

/-! ### Claim theorems -/

/-- C1: dedup is at-most-once.  For every non-empty `source_id` `X`, across
two consecutive runs of the dedup stage sharing the seen-item store, at
most one item carrying `X` is appended to the dedup output (and thereby
inserted into the store); every later occurrence in the same run or the
next run is dropped. -/
theorem c1_dedup_at_most_once (raw1 raw2 : List RawItem) (store : Store) (X : List Char)
    (_hX : X ≠ []) :
    sidCount X (filter_new_items raw1 store).1 +
      sidCount X (filter_new_items raw2 (filter_new_items raw1 store).2).1 ≤ 1 := by
  by_cases hmem : X ∈ store
  · simp [fni_count_seen raw1 store X hmem,
      fni_count_seen raw2 _ X (fni_store_mono raw1 store X hmem)]
  · rcases Nat.eq_zero_or_pos (sidCount X (filter_new_items raw1 store).1) with h0 | hpos
    · simpa [h0] using fni_count_le_one raw2 (filter_new_items raw1 store).2 X
    · have hs : X ∈ (filter_new_items raw1 store).2 := fni_pos_mem_store raw1 store X hpos
      have h2 : sidCount X (filter_new_items raw2 (filter_new_items raw1 store).2).1 = 0 :=
        fni_count_seen raw2 _ X hs
      simpa [h2] using fni_count_le_one raw1 store X

/-- Witness for C1 at a concrete input: the same item fetched in two
consecutive runs is counted as new at most once. -/
theorem c1_witness :
    (['a'] : List Char) ≠ [] ∧
      sidCount ['a'] (filter_new_items [itemA] []).1 +
        sidCount ['a'] (filter_new_items [itemA] (filter_new_items [itemA] []).2).1 ≤ 1 :=
  ⟨by decide, c1_dedup_at_most_once [itemA] [itemA] [] ['a'] (by decide)⟩

/-- C2: mark-then-maybe-reject.  A raw item with a non-empty, unseen
`source_id` is recorded in the store by the dedup stage; the store the
pipeline ends with is exactly the one the dedup stage produced (the
temporal filter and the rule engine never touch it); and the dedup stage
of the following run drops every occurrence of that `source_id`, whether
or not the item survived the later filters of the first run. -/
theorem c2_mark_then_maybe_reject (raw1 raw2 : List RawItem) (store : Store)
    (lookback now : Int) (always : List (List Char)) (groups : List (List (List Char)))
    (item : RawItem) (h1 : item ∈ raw1) (h2 : getS item.source_id ≠ [])
    (_h3 : getS item.source_id ∉ store) :
    getS item.source_id ∈ (run_daily_core raw1 store lookback now always groups).2 ∧
      (run_daily_core raw1 store lookback now always groups).2 =
        (filter_new_items raw1 store).2 ∧
      sidCount (getS item.source_id)
        (filter_new_items raw2
          (run_daily_core raw1 store lookback now always groups).2).1 = 0 := by
  have hmark := fni_marks raw1 store item h1 h2
  exact ⟨hmark, rfl, fni_count_seen raw2 _ _ hmark⟩

/-- Witness for C2 at a concrete input: an item that the temporal filter
rejects (no dates at all) is still marked seen and dropped next run. -/
theorem c2_witness :
    itemA ∈ [itemA] ∧
      getS itemA.source_id ∈ (run_daily_core [itemA] [] 7 0 [] []).2 ∧
      sidCount (getS itemA.source_id)
        (filter_new_items [itemA] (run_daily_core [itemA] [] 7 0 [] []).2).1 = 0 := by
  have h := c2_mark_then_maybe_reject [itemA] [itemA] [] 7 0 [] [] itemA
    (by decide) (by decide) (by decide)
  exact ⟨by decide, h.1, h.2.2⟩

/-- C3: temporal admission is conjunctive.  For every item and every
`lookback_days ≥ 0`, `is_within_date_range` is true exactly when the
effective start (`apply_start` if non-empty, else `published_at`) parses
to a date at or after `now - lookback_days`, AND `apply_end` parses to a
date at or after `now`; and an item whose `apply_end` is absent or
unparseable is never admitted. -/
theorem c3_temporal_conjunctive (item : RawItem) (lookback now : Int)
    (_hlb : 0 ≤ lookback) :
    (is_within_date_range item lookback now = true ↔
      ((∃ y m d, parse_date (effectiveStartStr item) = some (y, m, d) ∧
          now - lookback * 86400 ≤ midnight y m d) ∧
        (∃ y m d, parse_date (getS item.apply_end) = some (y, m, d) ∧
          now ≤ midnight y m d))) ∧
      (parse_date (getS item.apply_end) = none →
        is_within_date_range item lookback now = false) := by
  constructor
  · rcases hs : parse_date (effectiveStartStr item) with _ | ⟨⟨y, m, d⟩⟩ <;>
      rcases he : parse_date (getS item.apply_end) with _ | ⟨⟨y', m', d'⟩⟩ <;>
        simp [is_within_date_range, hs, he, ge_iff_le] <;> aesop
  · intro hnone
    simp [is_within_date_range, hnone]

/-- Witness for C3 at a concrete input: a recent `apply_start` with no
`apply_end` is rejected. -/
theorem c3_witness :
    (0 : Int) ≤ 7 ∧
      is_within_date_range itemNoEnd 7 (midnight 2024 1 12) = false :=
  ⟨by decide, (c3_temporal_conjunctive itemNoEnd 7 (midnight 2024 1 12)
    (by decide)).2 (by decide)⟩

/-- C10: same-day-deadline rejection.  `apply_end` parses to midnight of
its calendar day, while the reference time carries the current time of
day; so whenever the reference time falls strictly after midnight of the
very day `apply_end` names, the item is rejected. -/
theorem c10_same_day_deadline (item : RawItem) (lookback now : Int) (y m d : Nat)
    (hend : parse_date (getS item.apply_end) = some (y, m, d))
    (hafter : midnight y m d < now) (_hsameday : now < midnight y m d + 86400) :
    is_within_date_range item lookback now = false := by
  rcases hs : parse_date (effectiveStartStr item) with _ | ⟨⟨y0, m0, d0⟩⟩ <;>
    simp [is_within_date_range, hs, hend] <;> omega

/-- Witness for C10 at a concrete input: a deadline of 2024-01-15, checked
one hour after midnight on 2024-01-15, is already expired. -/
theorem c10_witness :
    parse_date (getS itemEnd0115.apply_end) = some (2024, 1, 15) ∧
      is_within_date_range itemEnd0115 7 (midnight 2024 1 15 + 3600) = false :=
  ⟨by decide, c10_same_day_deadline itemEnd0115 7 (midnight 2024 1 15 + 3600)
    2024 1 15 (by decide) (by decide) (by decide)⟩

/-- C4: rule-engine semantics.  The tag the rule stage attaches contains a
keyword `k` exactly when `k` is drawn from `always_include` or from some
group's `any` list and the lowering of `k` occurs as a substring of the
lowered `title + " " + summary + " " + content`; the tag is
duplicate-free; and the stage drops an item exactly when no keyword
matched. -/
theorem c4_rule_engine (always : List (List Char)) (groups : List (List (List Char)))
    (item : RawItem) (k : List Char) :
    (k ∈ tagOf (ruleStage always groups item) ↔
      ((k ∈ always ∨ ∃ g, g ∈ groups ∧ k ∈ g) ∧
        ∃ pre post, searchText item = pre ++ toLowerStr k ++ post)) ∧
      (tagOf (ruleStage always groups item)).Nodup ∧
      (ruleStage always groups item = none ↔
        matchedKeywords always groups (searchText item) = []) := by
  have hkeys : ∀ o : Option NormalizedItem, ∀ n, o = some n → tagOf o = n.keywords := by
    rintro o n rfl; rfl
  by_cases hempty : matchedKeywords always groups (searchText item) = []
  · have hrs : ruleStage always groups item = none := by simp [ruleStage, hempty]
    rw [hrs]
    refine ⟨?_, by simp [tagOf], by simp [hempty]⟩
    rw [show tagOf none = [] from rfl]
    rw [iff_false_intro (List.not_mem_nil k), false_iff]
    rintro ⟨hsrc, pre, post, hsub⟩
    have hk : k ∈ matchedKeywords always groups (searchText item) :=
      (mem_matchedKeywords always groups (searchText item) k).mpr
        ⟨hsrc, (containsSub_iff (searchText item) (toLowerStr k)).mpr ⟨pre, post, hsub⟩⟩
    rw [hempty] at hk
    cases hk
  · have hrs : ruleStage always groups item =
        some (normalize_item (tagItem always groups item)) := by simp [ruleStage, hempty]
    have htag : tagOf (ruleStage always groups item) =
        pySet (matchedKeywords always groups (searchText item)) := by
      rw [hkeys _ _ hrs]; rfl
    rw [htag]
    refine ⟨?_, nodup_pySet _, by simp [hrs, hempty]⟩
    rw [mem_pySet, mem_matchedKeywords, containsSub_iff]

/-- C5: rule-engine monotonicity.  If policy `P'` extends `P` by one more
keyword in `always_include` or in one group's `any` list, every keyword
matched under `P` is matched under `P'`, and an item with a non-empty
match set under `P` still has one under `P'`. -/
theorem c5_rule_monotone (always always' : List (List Char))
    (groups groups' : List (List (List Char)))
    (hext : ((∃ knew, always' = always ++ [knew]) ∧ groups' = groups) ∨
      (always' = always ∧ ∃ pre g post knew, groups = pre ++ g :: post ∧
        groups' = pre ++ (g ++ [knew]) :: post))
    (text : List Char) :
    (∀ k, k ∈ matchedKeywords always groups text →
        k ∈ matchedKeywords always' groups' text) ∧
      (matchedKeywords always groups text ≠ [] →
        matchedKeywords always' groups' text ≠ []) := by
  have hmono : ∀ k, k ∈ matchedKeywords always groups text →
      k ∈ matchedKeywords always' groups' text := by
    intro k hk
    obtain ⟨hsrc, hsub⟩ := (mem_matchedKeywords always groups text k).mp hk
    refine (mem_matchedKeywords always' groups' text k).mpr ⟨?_, hsub⟩
    rcases hext with ⟨⟨knew, rfl⟩, rfl⟩ | ⟨rfl, pre, g, post, knew, rfl, rfl⟩
    · rcases hsrc with ha | hg
      · exact Or.inl (List.mem_append_left _ ha)
      · exact Or.inr hg
    · rcases hsrc with ha | ⟨g0, hg0, hkg0⟩
      · exact Or.inl ha
      · rcases List.mem_append.mp hg0 with hpre | hrest
        · exact Or.inr ⟨g0, List.mem_append_left _ hpre, hkg0⟩
        · rcases List.mem_cons.mp hrest with rfl | hpost
          · exact Or.inr ⟨g0 ++ [knew], List.mem_append_right _ (List.mem_cons_self _ _),
              List.mem_append_left _ hkg0⟩
          · exact Or.inr ⟨g0, List.mem_append_right _ (List.mem_cons_of_mem _ hpost), hkg0⟩
  refine ⟨hmono, fun hne => ?_⟩
  obtain ⟨k, hk⟩ := List.exists_mem_of_ne_nil _ hne
  exact List.ne_nil_of_mem (hmono k hk)

/-- Witness for C5 at a concrete input: after extending
`always_include = ["a"]` with `"b"`, the keyword `"a"` still matches the
text `"xa"`. -/
theorem c5_witness : ['a'] ∈ matchedKeywords [['a'], ['b']] [] ['x', 'a'] :=
  (c5_rule_monotone [['a']] [['a'], ['b']] [] []
    (Or.inl ⟨⟨['b'], rfl⟩, rfl⟩) ['x', 'a']).1 ['a'] (by decide)

/-- C6 counterexample: with `url = "u"`, `link = "l"`, `published_at = "p"`
and `date = "d"` all present, `normalize_item` puts the value of `url`
into `link` and the value of `published_at` into `date`, although `link`
and `date` are present — the aliases run in the opposite direction from
the claim's "only when absent". -/
theorem c6_counterexample :
    itemAliases.link = some ['l'] ∧ (normalize_item itemAliases).link = ['u'] ∧
      (['u'] : List Char) ≠ ['l'] ∧
      itemAliases.date = some ['d'] ∧ (normalize_item itemAliases).date = ['p'] ∧
      (['p'] : List Char) ≠ ['d'] := by
  refine ⟨rfl, rfl, by decide, rfl, rfl, by decide⟩

/-- C6 (amended): `normalize_item` is a pure total function that fills
every field of the canonical shape, defaulting absent fields to the empty
string or the empty list; `link` takes the value of `url` whenever `url`
is present and non-empty, falling back to `link`, and `date` takes the
value of `published_at` whenever present and non-empty, falling back to
`date`. -/
theorem c6_normalizer_amended (item : RawItem) :
    (normalize_item item).link =
        (if getS item.url = [] then getS item.link else getS item.url) ∧
      (normalize_item item).date =
        (if getS item.published_at = [] then getS item.date
         else getS item.published_at) ∧
      (normalize_item item).source = getS item.source ∧
      (normalize_item item).source_id = getS item.source_id ∧
      (normalize_item item).title = getS item.title ∧
      (normalize_item item).apply_start = getS item.apply_start ∧
      (normalize_item item).apply_end = getS item.apply_end ∧
      (normalize_item item).summary = getS item.summary ∧
      (normalize_item item).content = getS item.content ∧
      (normalize_item item).keywords = (item.keywords).getD [] ∧
      normalize_item {} =
        { source := [], source_id := [], title := [], link := [], date := [],
          apply_start := [], apply_end := [], summary := [], content := [],
          keywords := [] } := by
  refine ⟨rfl, rfl, rfl, rfl, rfl, rfl, rfl, rfl, rfl, rfl, rfl⟩

/-- C7: order preservation.  The pipeline's final list is the image, under
the per-item tagging and normalization, of a subsequence of the raw input
batch: the dedup stage fixes the relative order, and no later stage
reorders or deduplicates again. -/
theorem c7_order_preserved (raw : List RawItem) (store : Store) (lookback now : Int)
    (always : List (List Char)) (groups : List (List (List Char))) :
    ∃ sub : List RawItem, sub.Sublist raw ∧
      (run_daily_core raw store lookback now always groups).1 =
        sub.map (fun it => normalize_item (tagItem always groups it)) := by
  refine ⟨((filter_new_items raw store).1.filter
      (fun it => is_within_date_range it lookback now)).filter
        (fun it => decide ¬ (matchedKeywords always groups (searchText it) = [])),
    ((List.filter_sublist _).trans (List.filter_sublist _)).trans (fni_sublist raw store),
    ?_⟩
  simp only [run_daily_core]
  exact filterMap_ite_none (fun it => matchedKeywords always groups (searchText it) = [])
    (fun it => normalize_item (tagItem always groups it)) _

/-- C8: notification cap.  With the default title, the rich message
carries exactly `min n 10` item blocks; for `n > 10` the header states the
total `n` together with the cap 10, for `0 < n ≤ 10` it states `n`, and
for `n = 0` the no-items message (with no item blocks) is sent. -/
theorem c8_notification_cap (items : List NormalizedItem) :
    (sectionsOf (send_rich_message items none)).length = min items.length 10 ∧
      headerOf (send_rich_message items none) =
        (if items.length = 0 then none
         else if items.length > 10 then some (HeaderText.capped items.length 10)
         else some (HeaderText.plain items.length)) := by
  by_cases hnil : items = []
  · subst hnil
    exact ⟨rfl, rfl⟩
  · have hlen : items.length ≠ 0 := by simpa [List.length_eq_zero] using hnil
    by_cases hgt : items.length > 10
    · simp [send_rich_message, hnil, sectionsOf, headerOf, MAX_SLACK_ITEMS, hgt, hlen,
        List.length_take, Nat.min_comm]
    · simp [send_rich_message, hnil, sectionsOf, headerOf, MAX_SLACK_ITEMS, hgt, hlen,
        List.length_take, Nat.min_comm]

/-- C9: exit-status taxonomy.  The entry point returns 0 when the run
completes (`run_pipeline` returns 0), 130 on `KeyboardInterrupt`, and 1
for every other exception — three pairwise-distinct statuses; the generic
failure is logged with its message, and a traceback is printed exactly
when verbose mode is on (and never on the other paths). -/
theorem c9_exit_taxonomy (msg : List Char) (verbose : Bool) (code : Int) :
    (mainModel (PipelineOutcome.completed run_pipeline_exit) verbose).exitCode = 0 ∧
      (mainModel PipelineOutcome.keyboardInterrupt verbose).exitCode = 130 ∧
      (mainModel (PipelineOutcome.error msg) verbose).exitCode = 1 ∧
      ((0 : Int) ≠ 130 ∧ (0 : Int) ≠ 1 ∧ (130 : Int) ≠ 1) ∧
      (mainModel (PipelineOutcome.error msg) verbose).loggedError = some msg ∧
      (mainModel (PipelineOutcome.error msg) verbose).tracebackPrinted = verbose ∧
      (mainModel (PipelineOutcome.completed code) verbose).tracebackPrinted = false ∧
      (mainModel PipelineOutcome.keyboardInterrupt verbose).tracebackPrinted = false := by
  exact ⟨rfl, rfl, rfl, ⟨by decide, by decide, by decide⟩, rfl, rfl, rfl, rfl⟩

end Radar
